import Mathlib

/-!
Verification development for the bar-age-gate client (a Midnight-network CLI).

The definitions below are a shallow embedding, transcribed from the
TypeScript sources:
  * `src/cli.ts` — witness store (`storeAge` / `loadAge`), bartender witnesses,
    `clientKeyFromNickname`, `signTransactionIntents`, `waitUntilSynced`,
    `waitForStatus`, `readClientStatus`;
  * the dust-registration script — UTXO candidate loop;
  * the deploy script — the balance retry loop.

Modelling conventions:
  * JS `Uint8Array` values are `List (Fin 256)`.
  * JS objects used as string-keyed records are association lists with the
    object-spread update semantics (`insertRecord`).
  * JS exceptions are `Except String`; the thrown `Error` message is the
    string payload.
  * Wall-clock time is discrete (`Nat`, milliseconds); an observable state
    source is a function from the sampling instant to the observed state,
    following the spec's own design note suggesting a pure
    `(now, deadline, pollInterval)` model of the polling loops.
  * Loops driven by wall-clock deadlines are given a structural fuel
    argument; the top-level instantiations pass enough fuel that the fuel
    branch is unreachable (each iteration advances time by a positive poll
    interval, so `deadline` iterations always suffice).
-/

namespace BarAgeGate

/-! ## Hexadecimal encoding (`keyHex` in cli.ts, `Buffer.from(·, 'hex')`) -/

/-- One lowercase hex digit, as produced by `Buffer.toString('hex')`. -/
def hexDigitChar (d : Nat) : Char :=
  if d < 10 then Char.ofNat (48 + d) else Char.ofNat (87 + d)

/-- The two hex characters of one byte. -/
def byteHexChars (b : Fin 256) : List Char :=
  [hexDigitChar (b.val / 16), hexDigitChar (b.val % 16)]

/-- All hex characters of a byte string. -/
def bytesHexChars (bs : List (Fin 256)) : List Char :=
  (bs.map byteHexChars).flatten

/-- `keyHex` from cli.ts: `Buffer.from(key).toString('hex')`. -/
def keyHex (bs : List (Fin 256)) : String :=
  String.mk (bytesHexChars bs)

/-- Value of one hex character, `none` for a non-hex character. -/
def hexDigitVal (c : Char) : Option (Fin 16) :=
  if h : 48 ≤ c.toNat ∧ c.toNat ≤ 57 then some ⟨c.toNat - 48, by omega⟩
  else if h' : 97 ≤ c.toNat ∧ c.toNat ≤ 102 then some ⟨c.toNat - 87, by omega⟩
  else none

/-- Decode a hex character sequence into bytes, two characters per byte,
stopping at the first malformed pair (the behaviour of
`Buffer.from(hex, 'hex')` on its output language, which is all we evaluate
it on). -/
def hexCharsToBytes : List Char → List (Fin 256)
  | c1 :: c2 :: rest =>
    match hexDigitVal c1, hexDigitVal c2 with
    | some hi, some lo =>
      (⟨16 * hi.val + lo.val, by omega⟩ : Fin 256) :: hexCharsToBytes rest
    | _, _ => []
  | _ => []

/-- `Uint8Array.from(Buffer.from(saltHex, 'hex'))` from `loadAge`. -/
def hexToBytes (s : String) : List (Fin 256) :=
  hexCharsToBytes s.data

/-! ## The client witness store (`createClientWitnesses` in cli.ts) -/

/-- `AgeRecord` from cli.ts: `{ age: number; saltHex: string }`. -/
structure AgeRecord where
  age : Nat
  saltHex : String
  deriving DecidableEq, Repr

/-- `BarPrivateState` from cli.ts: `{ agesByClientId: Record<string, AgeRecord> }`,
the string-keyed JS object modelled as an association list with unique keys. -/
structure BarPrivateState where
  agesByClientId : List (String × AgeRecord)
  deriving DecidableEq, Repr

/-- `emptyPrivateState` from cli.ts. -/
def emptyPrivateState : BarPrivateState := ⟨[]⟩

/-- JS property read `m[k]`: first (unique) matching key. -/
def lookupRecord : List (String × AgeRecord) → String → Option AgeRecord
  | [], _ => none
  | (k', v) :: rest, k => if k' = k then some v else lookupRecord rest k

/-- JS object-spread update `{...m, [k]: v}`: replace in place if the key is
present, append otherwise. -/
def insertRecord : List (String × AgeRecord) → String → AgeRecord → List (String × AgeRecord)
  | [], k, v => [(k, v)]
  | (k', v') :: rest, k, v =>
    if k' = k then (k, v) :: rest else (k', v') :: insertRecord rest k v

/-- `normalizePrivateState` from cli.ts: a missing / non-object private state
(modelled by `none`) is replaced by the empty state. -/
def normalizePrivateState (state : Option BarPrivateState) : BarPrivateState :=
  match state with
  | none => emptyPrivateState
  | some s => s

/-- `storeAge` of `createClientWitnesses`: pure map update; the second
component is the (empty) tuple of circuit-visible results. `Number(age)` on
the bigint and hex-encoding of the salt are transcribed directly. -/
def storeAge (contextPrivateState : Option BarPrivateState)
    (clientKey : List (Fin 256)) (age : Nat) (salt : List (Fin 256)) :
    BarPrivateState × Unit :=
  let privateState := normalizePrivateState contextPrivateState
  ({ agesByClientId :=
      insertRecord privateState.agesByClientId (keyHex clientKey)
        { age := age, saltHex := keyHex salt } },
   ())

/-- The message thrown by `loadAge` when the record is absent. -/
def missingRecordMsg : String :=
  "Missing private age record. Register client first with this wallet."

/-- `loadAge` of `createClientWitnesses`: read-only lookup that re-exposes the
stored age and the salt decoded from its hex form, or throws if absent. -/
def loadAge (contextPrivateState : Option BarPrivateState)
    (clientKey : List (Fin 256)) :
    Except String (BarPrivateState × Nat × List (Fin 256)) :=
  let privateState := normalizePrivateState contextPrivateState
  match lookupRecord privateState.agesByClientId (keyHex clientKey) with
  | none => .error missingRecordMsg
  | some record => .ok (privateState, record.age, hexToBytes record.saltHex)

/-- Message thrown by the bartender `storeAge`. -/
def bartenderStoreMsg : String := "storeAge witness is client-only"

/-- Message thrown by the bartender `loadAge`. -/
def bartenderLoadMsg : String := "loadAge witness is client-only"

/-- `storeAge` of `createBartenderWitnesses`: throws unconditionally. -/
def bartenderStoreAge (_contextPrivateState : Option BarPrivateState)
    (_clientKey : List (Fin 256)) (_age : Nat) (_salt : List (Fin 256)) :
    Except String (BarPrivateState × Unit) :=
  .error bartenderStoreMsg

/-- `loadAge` of `createBartenderWitnesses`: throws unconditionally. -/
def bartenderLoadAge (_contextPrivateState : Option BarPrivateState)
    (_clientKey : List (Fin 256)) :
    Except String (BarPrivateState × Nat × List (Fin 256)) :=
  .error bartenderLoadMsg

/-! ## Commitment-key derivation (`clientKeyFromNickname` in cli.ts) -/

/-- UTF-8 bytes of the domain-separation tag `'bar:client:v1'`. -/
def clientDomainTag : List (Fin 256) :=
  [98, 97, 114, 58, 99, 108, 105, 101, 110, 116, 58, 118, 49]

/-- `clientKeyFromNickname` from cli.ts:
`createHash('sha256').update('bar:client:v1').update(nickname, 'utf8').digest()`.
SHA-256 streams the concatenation of its updates, so the digest is
`hash (tag ++ utf8 nickname)`; the hash itself is an external primitive and
is a parameter of the model, the nickname is given by its UTF-8 bytes. -/
def clientKeyFromNickname (hash : List (Fin 256) → List (Fin 256))
    (nicknameUtf8 : List (Fin 256)) : List (Fin 256) :=
  hash (clientDomainTag ++ nicknameUtf8)

/-! ## Substring matching (`String.prototype.includes`) -/

/-- Character-list version of "pat is an initial segment of s". -/
def isPreOf : List Char → List Char → Bool
  | [], _ => true
  | _ :: _, [] => false
  | a :: as, b :: bs => a = b && isPreOf as bs

/-- `pat` occurs contiguously in `s`. -/
def includesChars (pat : List Char) : List Char → Bool
  | [] => isPreOf pat []
  | c :: rest => isPreOf pat (c :: rest) || includesChars pat rest

/-- JS `s.includes(pat)`. -/
def strIncludes (s pat : String) : Bool :=
  includesChars pat.data s.data

/-! ## Intent signing (`signTransactionIntents` in cli.ts)

The ledger library's `serialize` / `Intent.deserialize` round-trip (the
"clone" that strips not-yet-final proof material) is an external primitive
and is modelled as the identity on the intent view below, which carries
exactly the parts of an intent the signing code observes: an opaque
content (determining the canonical signing payload `signatureData`) and
the two optional unshielded offers. `offer.addSignatures(sigs)` replaces
the offer's signature array with `sigs`. -/

/-- An unshielded offer: spend inputs plus a (possibly shorter) array of
per-input signatures; `signatures[i]?` is `undefined` past the end. -/
structure UnshieldedOffer (Sig : Type) where
  inputs : List Nat
  signatures : List Sig
  deriving DecidableEq, Repr

/-- An intent segment as observed by the signing code. `content` stands for
the segment's canonical signing material: `signatureData segment` is
modelled as the pair `(content, segment)`. -/
structure Intent (Sig : Type) where
  content : Nat
  fallibleUnshieldedOffer : Option (UnshieldedOffer Sig)
  guaranteedUnshieldedOffer : Option (UnshieldedOffer Sig)
  deriving DecidableEq, Repr

/-- A transaction: its `intents` map (segment index → intent), a JS `Map`
modelled as an association list with unique keys in insertion order. -/
structure Transaction (Sig : Type) where
  intents : List (Nat × Intent Sig)
  deriving DecidableEq, Repr

/-- JS `Map.get`. -/
def lookupIntent {Sig : Type} : List (Nat × Intent Sig) → Nat → Option (Intent Sig)
  | [], _ => none
  | (k', v) :: rest, k => if k' = k then some v else lookupIntent rest k

/-- The per-offer signing step:
`inputs.map((_, i) => signatures.at(i) ?? signature)` followed by
`addSignatures`; slots that already carry a signature are preserved, the
rest receive `sig`. (Mapping over `inputs` uses only the index, so it is
transcribed as a map over `range inputs.length`.) -/
def signOffer {Sig : Type} (sig : Sig) (o : UnshieldedOffer Sig) : UnshieldedOffer Sig :=
  { inputs := o.inputs,
    signatures := (List.range o.inputs.length).map (fun i => (o.signatures[i]?).getD sig) }

/-- One iteration of the segment loop: clone (modelled as identity), compute
the segment signature, fill unsigned slots of both offers. -/
def signIntent {Sig : Type} (signFn : Nat × Nat → Sig) (segment : Nat)
    (intent : Intent Sig) : Intent Sig :=
  let signature := signFn (intent.content, segment)
  { content := intent.content,
    fallibleUnshieldedOffer := intent.fallibleUnshieldedOffer.map (signOffer signature),
    guaranteedUnshieldedOffer := intent.guaranteedUnshieldedOffer.map (signOffer signature) }

/-- `signTransactionIntents` from cli.ts: each entry of the intent map is
replaced (`tx.intents.set`) by its signed clone; an empty map is returned
unchanged (the early return). -/
def signTransactionIntents {Sig : Type} (signFn : Nat × Nat → Sig)
    (tx : Transaction Sig) : Transaction Sig :=
  { intents := tx.intents.map (fun e => (e.1, signIntent signFn e.1 e.2)) }

/-- Every input slot of the offer already carries a signature (and there are
no surplus array entries): the state of an offer after signing. -/
def offerFullySigned {Sig : Type} (o : UnshieldedOffer Sig) : Prop :=
  o.signatures.length = o.inputs.length

/-- Both offers of the intent are fully signed. -/
def intentFullySigned {Sig : Type} (it : Intent Sig) : Prop :=
  (∀ o, it.fallibleUnshieldedOffer = some o → offerFullySigned o) ∧
  (∀ o, it.guaranteedUnshieldedOffer = some o → offerFullySigned o)

/-- Every segment of the transaction is fully signed. -/
def txFullySigned {Sig : Type} (tx : Transaction Sig) : Prop :=
  ∀ e ∈ tx.intents, intentFullySigned e.2

/-! ## Bounded polling (`waitUntilSynced`, `waitForStatus` in cli.ts) -/

/-- `WAIT_POLL_MS` from cli.ts. -/
def WAIT_POLL_MS : Nat := 2000

/-- `WAIT_FOR_SYNC_MS` from cli.ts. -/
def WAIT_FOR_SYNC_MS : Nat := 90000

/-- `WAIT_FOR_STATE_UPDATE_MS` from cli.ts. -/
def WAIT_FOR_STATE_UPDATE_MS : Nat := 60000

/-- Observable outcome of one polling loop: the returned state (`none`
models the timeout outcome — a thrown timeout `Error` for
`waitUntilSynced`, the `null` return for `waitForStatus`), the instants at
which the state source was sampled, and the wall-clock instant at which
the loop exited. -/
structure WaitOutcome (S : Type) where
  result : Option S
  sampledAt : List Nat
  exitTime : Nat
  deriving DecidableEq, Repr

/-- The `waitUntilSynced` loop body:
`while (now < deadline) { s := sample(now); if (pred s) return s; sleep(poll) }`
— sample first, then sleep. Time `now` advances by `poll` per iteration;
sampling is instantaneous. -/
def syncLoop {S : Type} (pred : S → Bool) (sample : Nat → S)
    (poll deadline : Nat) : Nat → Nat → WaitOutcome S
  | 0, now => ⟨none, [], now⟩
  | fuel + 1, now =>
    if now < deadline then
      let s := sample now
      if pred s then ⟨some s, [now], now⟩
      else
        let r := syncLoop pred sample poll deadline fuel (now + poll)
        ⟨r.result, now :: r.sampledAt, r.exitTime⟩
    else ⟨none, [], now⟩

/-- The `waitForStatus` loop body:
`while (now < deadline) { sleep(poll); s := sample(now + poll); if (pred s) return s }`
— sleep first, then sample. -/
def statusLoop {S : Type} (pred : S → Bool) (sample : Nat → S)
    (poll deadline : Nat) : Nat → Nat → WaitOutcome S
  | 0, now => ⟨none, [], now⟩
  | fuel + 1, now =>
    if now < deadline then
      let t := now + poll
      let s := sample t
      if pred s then ⟨some s, [t], t⟩
      else
        let r := statusLoop pred sample poll deadline fuel t
        ⟨r.result, t :: r.sampledAt, r.exitTime⟩
    else ⟨none, [], now⟩

/-- `waitUntilSynced`, started at relative time 0 with the constants of
cli.ts (fuel `WAIT_FOR_SYNC_MS` is more than the number of iterations,
since each iteration advances time by `WAIT_POLL_MS ≥ 1`). -/
def waitUntilSyncedModel {S : Type} (pred : S → Bool) (sample : Nat → S) : WaitOutcome S :=
  syncLoop pred sample WAIT_POLL_MS WAIT_FOR_SYNC_MS WAIT_FOR_SYNC_MS 0

/-- `waitForStatus`, started at relative time 0 with the constants of cli.ts. -/
def waitForStatusModel {S : Type} (pred : S → Bool) (sample : Nat → S) : WaitOutcome S :=
  statusLoop pred sample WAIT_POLL_MS WAIT_FOR_STATE_UPDATE_MS WAIT_FOR_STATE_UPDATE_MS 0

/-! ## The deploy balance retry loop (deploy script, `main`) -/

/-- The substring identifying the one retryable balance failure. -/
def dustErrorSubstr : String := "Not enough Dust generated to pay the fee"

/-- The message of the fatal timeout thrown once the dust deadline passes. -/
def dustTimeoutMsg : String := "Timed out waiting for dust."

/-- The deploy script's balance loop: try `balanceUnprovenTransaction` (an
external call whose outcome at instant `t` is `attempt t`); on success stop;
on a failure whose message does not contain `dustErrorSubstr` rethrow it
unchanged; otherwise throw the fatal timeout if `now > endDust`, else sleep
`poll` and retry. The fuel-0 branch is unreachable for the fuel supplied by
users of this model. -/
def balanceRetryLoop {α : Type} (attempt : Nat → Except String α)
    (poll endDust : Nat) : Nat → Nat → Except String α
  | 0, _ => .error dustTimeoutMsg
  | fuel + 1, now =>
    match attempt now with
    | .ok r => .ok r
    | .error msg =>
      if strIncludes msg dustErrorSubstr then
        if endDust < now then .error dustTimeoutMsg
        else balanceRetryLoop attempt poll endDust fuel (now + poll)
      else .error msg

/-! ## Dust-registration candidate loop (dust script, `main`) -/

/-- An unspent output as observed by the candidate loop (`utxo.value`). -/
structure Utxo where
  value : Nat
  owner : Nat
  deriving DecidableEq, Repr

/-- The ledger-rejection code treated as "candidate ineligible, try next". -/
def ineligibleSubstr : String := "Custom error: 139"

/-- The failure after every candidate was rejected as ineligible. -/
def noCandidateMsg : String := "No UTXO accepted for dust registration."

/-- Stable descending insertion, modelling one step of
`[...utxos].sort((a, b) => Number(b.utxo.value - a.utxo.value))` (the
comparator's sign equals the sign of `b.value - a.value`, so the sort is by
descending value; JS `sort` is stable). -/
def insertDesc (u : Utxo) : List Utxo → List Utxo
  | [] => [u]
  | v :: rest => if v.value < u.value then u :: v :: rest else v :: insertDesc u rest

/-- The sorted candidate list, descending by value. -/
def sortByValueDesc (utxos : List Utxo) : List Utxo :=
  utxos.foldr insertDesc []

/-- The candidate loop: submit (register + finalize + submit, an external
call with outcome `submit u`) for each candidate in turn; stop at the first
accepted candidate; a rejection containing `ineligibleSubstr` moves to the
next candidate, any other error is rethrown; an empty `txHash` after the
loop throws `noCandidateMsg`. The second component counts submission
attempts. -/
def tryCandidates (submit : Utxo → Except String String) :
    List Utxo → Except String String × Nat
  | [] => (.error noCandidateMsg, 0)
  | u :: rest =>
    match submit u with
    | .ok h => (.ok h, 1)
    | .error msg =>
      if strIncludes msg ineligibleSubstr then
        let r := tryCandidates submit rest
        (r.1, r.2 + 1)
      else (.error msg, 1)

/-- The whole flow: sort candidates by descending value, then run the loop. -/
def registerDustFlow (submit : Utxo → Except String String) (utxos : List Utxo) :
    Except String String × Nat :=
  tryCandidates submit (sortByValueDesc utxos)

/-! ## Contract status (`readClientStatus` in cli.ts) -/

/-- One named public mapping of the contract's ledger view, an opaque typed
interface (`member` / `lookup`) supplied by the compiled contract module. -/
structure LedgerMapping (V : Type) where
  member : List (Fin 256) → Bool
  lookup : List (Fin 256) → V

/-- The three named public mappings decoded by `readClientStatus`. The
indexer round-trip `RuntimeContractState.deserialize(state.serialize())` and
`contractModule.ledger` are external and modelled as already applied: the
queried state is `Option LedgerView`, `none` when no indexed state exists. -/
structure LedgerView where
  ageCommitment : LedgerMapping (List (Fin 256))
  adultPermit : LedgerMapping Bool
  drinksSold : LedgerMapping Nat

/-- `ClientStatus` from cli.ts. -/
structure ClientStatus where
  registered : Bool
  adultVerified : Bool
  drinksSold : Nat
  deriving DecidableEq, Repr

/-- `readClientStatus` from cli.ts. -/
def readClientStatus (state : Option LedgerView) (clientKey : List (Fin 256)) :
    ClientStatus :=
  match state with
  | none => { registered := false, adultVerified := false, drinksSold := 0 }
  | some ledgerView =>
    if ledgerView.ageCommitment.member clientKey then
      { registered := true,
        adultVerified :=
          ledgerView.adultPermit.member clientKey &&
            ledgerView.adultPermit.lookup clientKey,
        drinksSold :=
          if ledgerView.drinksSold.member clientKey then
            ledgerView.drinksSold.lookup clientKey
          else 0 }
    else { registered := false, adultVerified := false, drinksSold := 0 }

/-! ## Hex encoding lemmas -/

theorem hexDigitVal_hexDigitChar :
    ∀ d : Fin 16, hexDigitVal (hexDigitChar d.val) = some d := by
  decide

theorem bytesHexChars_cons (b : Fin 256) (bs : List (Fin 256)) :
    bytesHexChars (b :: bs) = byteHexChars b ++ bytesHexChars bs := by
  simp [bytesHexChars]

theorem hexCharsToBytes_byteHexChars (b : Fin 256) (rest : List Char) :
    hexCharsToBytes (byteHexChars b ++ rest) = b :: hexCharsToBytes rest := by
  have hhi : (⟨b.val / 16, by omega⟩ : Fin 16).val = b.val / 16 := rfl
  have h1 : hexDigitVal (hexDigitChar (b.val / 16)) = some ⟨b.val / 16, by omega⟩ := by
    have := hexDigitVal_hexDigitChar ⟨b.val / 16, by omega⟩
    simpa using this
  have h2 : hexDigitVal (hexDigitChar (b.val % 16)) = some ⟨b.val % 16, by omega⟩ := by
    have := hexDigitVal_hexDigitChar ⟨b.val % 16, by omega⟩
    simpa using this
  simp only [byteHexChars, List.cons_append, List.nil_append, hexCharsToBytes, h1, h2]
  congr 1
  apply Fin.ext
  simp
  omega

theorem hexCharsToBytes_bytesHexChars (bs : List (Fin 256)) :
    hexCharsToBytes (bytesHexChars bs) = bs := by
  induction bs with
  | nil => rfl
  | cons b rest ih =>
    rw [bytesHexChars_cons, hexCharsToBytes_byteHexChars, ih]

theorem hexToBytes_keyHex (bs : List (Fin 256)) :
    hexToBytes (keyHex bs) = bs :=
  hexCharsToBytes_bytesHexChars bs

theorem keyHex_injective : Function.Injective keyHex := by
  intro a b h
  have := congrArg hexToBytes h
  rwa [hexToBytes_keyHex, hexToBytes_keyHex] at this

/-! ## Association-list lemmas for the private-state map -/

theorem lookupRecord_insertRecord_self (m : List (String × AgeRecord))
    (k : String) (v : AgeRecord) :
    lookupRecord (insertRecord m k v) k = some v := by
  induction m with
  | nil => simp [insertRecord, lookupRecord]
  | cons e rest ih =>
    obtain ⟨ek, ev⟩ := e
    by_cases hek : ek = k
    · simp [insertRecord, hek, lookupRecord]
    · simp [insertRecord, hek, lookupRecord, ih]

theorem lookupRecord_insertRecord_ne (m : List (String × AgeRecord))
    (k k' : String) (v : AgeRecord) (h : k' ≠ k) :
    lookupRecord (insertRecord m k v) k' = lookupRecord m k' := by
  have hne : ¬(k = k') := fun he => h (Eq.symm he)
  induction m with
  | nil => simp [insertRecord, lookupRecord, hne]
  | cons e rest ih =>
    obtain ⟨ek, ev⟩ := e
    by_cases hek : ek = k
    · subst hek
      simp [insertRecord, lookupRecord, hne]
    · by_cases hek' : ek = k'
      · simp [insertRecord, hek, lookupRecord, hek', h]
      · simp [insertRecord, hek, lookupRecord, hek', ih]

/-! ## Claims C1 - C3: the witness store -/

/-- C1: `storeAge` is a pure map update: the record is inserted/overwritten
at the given commitment key, every other entry is unchanged, and for
distinct keys `k1 ≠ k2`, storing `(a1, salt1)` at `k1` and then
`(a2, salt2)` at `k2` leaves both records independently retrievable via
`loadAge` (each returning its stored age and salt). `storeAge` performs no
external I/O: it is the pure function embedded here. -/
theorem claim_C1 (ps : Option BarPrivateState) (k1 k2 salt1 salt2 : List (Fin 256))
    (a1 a2 : Nat) :
    (∀ k', k' ≠ keyHex k1 →
      lookupRecord (storeAge ps k1 a1 salt1).1.agesByClientId k' =
        lookupRecord (normalizePrivateState ps).agesByClientId k') ∧
    lookupRecord (storeAge ps k1 a1 salt1).1.agesByClientId (keyHex k1) =
      some { age := a1, saltHex := keyHex salt1 } ∧
    (k1 ≠ k2 →
      loadAge (some (storeAge (some (storeAge ps k1 a1 salt1).1) k2 a2 salt2).1) k1 =
        .ok ((storeAge (some (storeAge ps k1 a1 salt1).1) k2 a2 salt2).1, a1, salt1) ∧
      loadAge (some (storeAge (some (storeAge ps k1 a1 salt1).1) k2 a2 salt2).1) k2 =
        .ok ((storeAge (some (storeAge ps k1 a1 salt1).1) k2 a2 salt2).1, a2, salt2)) := by
  refine ⟨?_, ?_, ?_⟩
  · intro k' hk'
    simpa [storeAge] using
      lookupRecord_insertRecord_ne (normalizePrivateState ps).agesByClientId
        (keyHex k1) k' { age := a1, saltHex := keyHex salt1 } hk'
  · simpa [storeAge] using
      lookupRecord_insertRecord_self (normalizePrivateState ps).agesByClientId
        (keyHex k1) { age := a1, saltHex := keyHex salt1 }
  · intro hne
    have hkey : keyHex k1 ≠ keyHex k2 := fun h => hne (keyHex_injective h)
    constructor
    · simp only [loadAge, storeAge, normalizePrivateState]
      rw [lookupRecord_insertRecord_ne _ _ _ _ hkey,
        lookupRecord_insertRecord_self]
      simp [hexToBytes_keyHex]
    · simp only [loadAge, storeAge, normalizePrivateState]
      rw [lookupRecord_insertRecord_self]
      simp [hexToBytes_keyHex]

/-- Witness for C1 at concrete inputs: key `[1]` is untouched by a store at
key `[0]`, and after storing at `[0]` then `[1]` both records are
retrievable. -/
theorem claim_C1_witness :
    lookupRecord (storeAge none [0] 22 [2]).1.agesByClientId (keyHex [1]) = none ∧
    loadAge (some (storeAge (some (storeAge none [0] 22 [2]).1) [1] 17 [4]).1) [0] =
      .ok ((storeAge (some (storeAge none [0] 22 [2]).1) [1] 17 [4]).1, 22, [2]) ∧
    loadAge (some (storeAge (some (storeAge none [0] 22 [2]).1) [1] 17 [4]).1) [1] =
      .ok ((storeAge (some (storeAge none [0] 22 [2]).1) [1] 17 [4]).1, 17, [4]) := by
  have h := claim_C1 none [0] [1] [2] [4] 22 17
  refine ⟨?_, (h.2.2 (by decide)).1, (h.2.2 (by decide)).2⟩
  have h1 := h.1 (keyHex [1]) (by decide)
  rw [h1]
  rfl

/-- C2: `loadAge` on a key that was never stored fails with the
missing-record error, whose message tells the user to register first; it
never synthesizes a record. On a stored key it returns the stored age and
the salt decoded from its stored hex form — in particular, after a
`storeAge`, exactly the salt used at commitment time — and it leaves the
private state unchanged (the state it returns is the normalized input
state). -/
theorem claim_C2 (ps : Option BarPrivateState) (k : List (Fin 256)) :
    (lookupRecord (normalizePrivateState ps).agesByClientId (keyHex k) = none →
      loadAge ps k = .error missingRecordMsg) ∧
    (∀ r, lookupRecord (normalizePrivateState ps).agesByClientId (keyHex k) = some r →
      loadAge ps k = .ok (normalizePrivateState ps, r.age, hexToBytes r.saltHex)) ∧
    (∀ a salt, loadAge (some (storeAge ps k a salt).1) k =
      .ok ((storeAge ps k a salt).1, a, salt)) := by
  refine ⟨?_, ?_, ?_⟩
  · intro habs
    simp [loadAge, habs]
  · intro r hr
    simp [loadAge, hr]
  · intro a salt
    simp only [loadAge, storeAge, normalizePrivateState]
    rw [lookupRecord_insertRecord_self]
    simp [hexToBytes_keyHex]

/-- Witness for C2 at concrete inputs: loading key `[1]` from the empty
state fails with the missing-record message; loading key `[0]` right after
storing it succeeds with the stored age and salt. -/
theorem claim_C2_witness :
    loadAge (some emptyPrivateState) [1] = .error missingRecordMsg ∧
    loadAge (some (storeAge (some emptyPrivateState) [0] 30 [7, 9]).1) [0] =
      .ok ((storeAge (some emptyPrivateState) [0] 30 [7, 9]).1, 30, [7, 9]) := by
  refine ⟨(claim_C2 (some emptyPrivateState) [1]).1 (by rfl),
    (claim_C2 (some emptyPrivateState) [0]).2.2 30 [7, 9]⟩

/-- C3: the bartender witness instantiation provides both operations, but
every call to either fails with the role-violation error, for every
context, client key, age and salt; neither ever returns a value
(`.ok` is impossible since the result is always the `.error`), and no
updated private state is ever produced. -/
theorem claim_C3 (ps : Option BarPrivateState) (k salt : List (Fin 256)) (a : Nat) :
    bartenderStoreAge ps k a salt = .error bartenderStoreMsg ∧
    bartenderLoadAge ps k = .error bartenderLoadMsg :=
  ⟨rfl, rfl⟩

/-! ## Claim C9: commitment-key derivation -/

/-- C9: `clientKeyFromNickname` is deterministic — any two evaluations on
the same nickname produce the same key — and collision-resistant within the
`'bar:client:v1'` domain: the hash input built from a nickname is injective
in the nickname (fixed domain tag prepended to the identifier), so whenever
the underlying one-way hash is collision-free on these inputs, distinct
identifiers yield distinct commitment keys. -/
theorem claim_C9 (hash : List (Fin 256) → List (Fin 256)) :
    (∀ n1 n2 : List (Fin 256), n1 = n2 →
      clientKeyFromNickname hash n1 = clientKeyFromNickname hash n2) ∧
    (∀ n1 n2 : List (Fin 256),
      n1 ≠ n2 → clientDomainTag ++ n1 ≠ clientDomainTag ++ n2) ∧
    (Function.Injective hash →
      ∀ n1 n2 : List (Fin 256), n1 ≠ n2 →
        clientKeyFromNickname hash n1 ≠ clientKeyFromNickname hash n2) := by
  refine ⟨fun n1 n2 h => by rw [h], ?_, ?_⟩
  · intro n1 n2 hne h
    exact hne (List.append_cancel_left h)
  · intro hinj n1 n2 hne h
    exact hne (List.append_cancel_left (hinj h))

/-- Witness for C9 with the identity hash (injective) and the distinct
one-byte nicknames `[0]` and `[1]`. -/
theorem claim_C9_witness :
    clientKeyFromNickname id [(0 : Fin 256)] ≠ clientKeyFromNickname id [1] :=
  (claim_C9 id).2.2 (fun _ _ h => h) [0] [1] (by decide)

/-! ## Claims C6 and C10: the decoded contract status -/

/-- C6: with no indexed contract state, `readClientStatus` returns the
all-false/zero status; otherwise it decodes the three named mappings with a
membership check guarding each lookup: an unregistered key gives the
all-false/zero status, a registered key reports `registered = true`,
`adultVerified` as membership-then-lookup of `adultPermit` (absent key:
`false`, never an error) and `drinksSold` as membership-then-lookup of
`drinksSold` (absent key: `0`, never an error). -/
theorem claim_C6 (v : LedgerView) (key : List (Fin 256)) :
    readClientStatus none key =
      { registered := false, adultVerified := false, drinksSold := 0 } ∧
    (v.ageCommitment.member key = false →
      readClientStatus (some v) key =
        { registered := false, adultVerified := false, drinksSold := 0 }) ∧
    (v.ageCommitment.member key = true →
      (readClientStatus (some v) key).registered = true ∧
      (readClientStatus (some v) key).adultVerified =
        (v.adultPermit.member key && v.adultPermit.lookup key) ∧
      (v.adultPermit.member key = false →
        (readClientStatus (some v) key).adultVerified = false) ∧
      (v.drinksSold.member key = true →
        (readClientStatus (some v) key).drinksSold = v.drinksSold.lookup key) ∧
      (v.drinksSold.member key = false →
        (readClientStatus (some v) key).drinksSold = 0)) := by
  refine ⟨rfl, fun habs => by simp [readClientStatus, habs], fun hmem => ?_⟩
  refine ⟨by simp [readClientStatus, hmem], by simp [readClientStatus, hmem], ?_, ?_, ?_⟩
  · intro hp
    simp [readClientStatus, hmem, hp]
  · intro hd
    simp [readClientStatus, hmem, hd]
  · intro hd
    simp [readClientStatus, hmem, hd]

/-- A concrete ledger view for the C6 / C10 witnesses: key `[1]` registered
with no permit and no counter entry. -/
def sampleLedgerView : LedgerView :=
  { ageCommitment := { member := fun k => decide (k = [1]), lookup := fun _ => [] },
    adultPermit := { member := fun _ => false, lookup := fun _ => true },
    drinksSold := { member := fun _ => false, lookup := fun _ => 5 } }

/-- Witness for C6: on `sampleLedgerView`, key `[2]` is unregistered and
reads all-false/zero; key `[1]` is registered and its absent permit and
counter entries read as `false` and `0`. -/
theorem claim_C6_witness :
    readClientStatus (some sampleLedgerView) [2] =
      { registered := false, adultVerified := false, drinksSold := 0 } ∧
    (readClientStatus (some sampleLedgerView) [1]).adultVerified = false ∧
    (readClientStatus (some sampleLedgerView) [1]).drinksSold = 0 := by
  have h6 := claim_C6 sampleLedgerView [2]
  have h6' := claim_C6 sampleLedgerView [1]
  exact ⟨h6.2.1 (by decide), (h6'.2.2 (by decide)).2.2.1 rfl,
    (h6'.2.2 (by decide)).2.2.2.2 rfl⟩

/-- C10: the decoded status never reports an unregistered client as
adult-verified or as having sold drinks: `registered = false` forces
`adultVerified = false` and `drinksSold = 0`, and conversely
`adultVerified = true` or `drinksSold ≠ 0` each force `registered = true`. -/
theorem claim_C10 (state : Option LedgerView) (key : List (Fin 256)) :
    ((readClientStatus state key).registered = false →
      (readClientStatus state key).adultVerified = false ∧
      (readClientStatus state key).drinksSold = 0) ∧
    ((readClientStatus state key).adultVerified = true →
      (readClientStatus state key).registered = true) ∧
    ((readClientStatus state key).drinksSold ≠ 0 →
      (readClientStatus state key).registered = true) := by
  match state with
  | none =>
    refine ⟨fun _ => ⟨rfl, rfl⟩, fun h => ?_, fun h => absurd rfl h⟩
    simp [readClientStatus] at h
  | some v =>
    by_cases hmem : v.ageCommitment.member key
    · refine ⟨fun hreg => ?_, fun _ => by simp [readClientStatus, hmem], ?_⟩
      · simp [readClientStatus, hmem] at hreg
      · intro _
        simp [readClientStatus, hmem]
    · refine ⟨fun _ => by simp [readClientStatus, hmem], fun h => ?_, fun h => ?_⟩
      · simp [readClientStatus, hmem] at h
      · simp [readClientStatus, hmem] at h

/-- Witness for C10: on `sampleLedgerView`, the unregistered key `[2]` is
reported neither adult-verified nor with any drinks sold. -/
theorem claim_C10_witness :
    (readClientStatus (some sampleLedgerView) [2]).adultVerified = false ∧
    (readClientStatus (some sampleLedgerView) [2]).drinksSold = 0 :=
  (claim_C10 (some sampleLedgerView) [2]).1 rfl

/-! ## Claim C4: intent signing -/

theorem signOffer_signatures_length {Sig : Type} (sig : Sig) (o : UnshieldedOffer Sig) :
    (signOffer sig o).signatures.length = o.inputs.length := by
  simp [signOffer]

theorem signOffer_getElem? {Sig : Type} (sig : Sig) (o : UnshieldedOffer Sig)
    (i : Nat) (hi : i < o.inputs.length) :
    (signOffer sig o).signatures[i]? = some ((o.signatures[i]?).getD sig) := by
  simp [signOffer, List.getElem?_map, List.getElem?_range hi]

theorem signOffer_preserves {Sig : Type} (sig : Sig) (o : UnshieldedOffer Sig)
    (i : Nat) (hi : i < o.inputs.length) (hs : i < o.signatures.length) :
    (signOffer sig o).signatures[i]? = o.signatures[i]? := by
  rw [signOffer_getElem? sig o i hi, List.getElem?_eq_getElem hs]
  rfl

theorem signOffer_fills {Sig : Type} (sig : Sig) (o : UnshieldedOffer Sig)
    (i : Nat) (hi : i < o.inputs.length) (hs : o.signatures.length ≤ i) :
    (signOffer sig o).signatures[i]? = some sig := by
  rw [signOffer_getElem? sig o i hi, List.getElem?_eq_none hs]
  rfl

theorem signOffer_of_fullySigned {Sig : Type} (sig : Sig) (o : UnshieldedOffer Sig)
    (h : offerFullySigned o) : signOffer sig o = o := by
  obtain ⟨inputs, signatures⟩ := o
  unfold offerFullySigned at h
  simp only at h
  simp only [signOffer]
  congr 1
  apply List.ext_getElem?
  intro i
  by_cases hi : i < inputs.length
  · have := signOffer_getElem? sig ⟨inputs, signatures⟩ i hi
    simp only [signOffer] at this
    rw [this, List.getElem?_eq_getElem (by omega : i < signatures.length)]
    rfl
  · rw [List.getElem?_eq_none, List.getElem?_eq_none (by omega)]
    simp
    omega

theorem signOffer_idem {Sig : Type} (sig sig' : Sig) (o : UnshieldedOffer Sig) :
    signOffer sig' (signOffer sig o) = signOffer sig o :=
  signOffer_of_fullySigned sig' (signOffer sig o) (signOffer_signatures_length sig o)

theorem signIntent_of_fullySigned {Sig : Type} (signFn : Nat × Nat → Sig)
    (segment : Nat) (it : Intent Sig) (h : intentFullySigned it) :
    signIntent signFn segment it = it := by
  obtain ⟨content, fal, gua⟩ := it
  obtain ⟨hf, hg⟩ := h
  simp only [signIntent]
  congr 1
  · cases fal with
    | none => rfl
    | some o => simp [signOffer_of_fullySigned _ o (hf o rfl)]
  · cases gua with
    | none => rfl
    | some o => simp [signOffer_of_fullySigned _ o (hg o rfl)]

theorem signIntent_fullySigned {Sig : Type} (signFn : Nat × Nat → Sig)
    (segment : Nat) (it : Intent Sig) :
    intentFullySigned (signIntent signFn segment it) := by
  constructor
  · intro o ho
    simp only [signIntent] at ho
    cases hf : it.fallibleUnshieldedOffer with
    | none => rw [hf] at ho; cases ho
    | some o' =>
      rw [hf] at ho
      simp at ho
      rw [← ho]
      exact signOffer_signatures_length _ o'
  · intro o ho
    simp only [signIntent] at ho
    cases hg : it.guaranteedUnshieldedOffer with
    | none => rw [hg] at ho; cases ho
    | some o' =>
      rw [hg] at ho
      simp at ho
      rw [← ho]
      exact signOffer_signatures_length _ o'

theorem signIntent_idem {Sig : Type} (signFn : Nat × Nat → Sig) (segment : Nat)
    (it : Intent Sig) :
    signIntent signFn segment (signIntent signFn segment it) =
      signIntent signFn segment it :=
  signIntent_of_fullySigned signFn segment _ (signIntent_fullySigned signFn segment it)

theorem lookupIntent_signTransactionIntents {Sig : Type} (signFn : Nat × Nat → Sig)
    (tx : Transaction Sig) (k : Nat) :
    lookupIntent (signTransactionIntents signFn tx).intents k =
      (lookupIntent tx.intents k).map (signIntent signFn k) := by
  obtain ⟨entries⟩ := tx
  simp only [signTransactionIntents]
  induction entries with
  | nil => rfl
  | cons e rest ih =>
    obtain ⟨ek, ev⟩ := e
    by_cases hek : ek = k
    · subst hek
      simp [lookupIntent]
    · simp only [List.map_cons, lookupIntent, if_neg hek]
      exact ih

/-- C4: for every transaction and segment of its intent map,
`signTransactionIntents` replaces the segment by its signed form
independently of the other segments (so processing order cannot affect the
result); per input slot, an already-present signature is preserved and only
missing slots receive the segment signature; a fully-signed transaction is
returned identical, and signing twice equals signing once. -/
theorem claim_C4 {Sig : Type} (signFn : Nat × Nat → Sig) (tx : Transaction Sig) :
    (∀ k, lookupIntent (signTransactionIntents signFn tx).intents k =
      (lookupIntent tx.intents k).map (signIntent signFn k)) ∧
    (∀ (sig : Sig) (o : UnshieldedOffer Sig) (i : Nat), i < o.inputs.length →
      (i < o.signatures.length →
        (signOffer sig o).signatures[i]? = o.signatures[i]?) ∧
      (o.signatures.length ≤ i →
        (signOffer sig o).signatures[i]? = some sig)) ∧
    (txFullySigned tx → signTransactionIntents signFn tx = tx) ∧
    signTransactionIntents signFn (signTransactionIntents signFn tx) =
      signTransactionIntents signFn tx := by
  refine ⟨lookupIntent_signTransactionIntents signFn tx, ?_, ?_, ?_⟩
  · intro sig o i hi
    exact ⟨signOffer_preserves sig o i hi, signOffer_fills sig o i hi⟩
  · intro hfull
    obtain ⟨entries⟩ := tx
    simp only [signTransactionIntents]
    congr 1
    induction entries with
    | nil => rfl
    | cons e rest ih =>
      simp only [List.map_cons]
      have he : intentFullySigned e.2 := hfull e (by simp)
      rw [signIntent_of_fullySigned signFn e.1 e.2 he]
      rw [ih (fun e' he' => hfull e' (by simp [he']))]
  · obtain ⟨entries⟩ := tx
    simp only [signTransactionIntents, List.map_map]
    congr 1
    apply List.map_congr_left
    intro e _
    simp only [Function.comp_apply]
    rw [signIntent_idem]

/-- Witness for C4 at a concrete transaction: one segment whose fallible
offer has two inputs and one pre-existing signature. The pre-existing
signature `10` is preserved, the empty slot receives the segment signature,
and re-signing the signed transaction is the identity. -/
theorem claim_C4_witness :
    (lookupIntent (signTransactionIntents (fun p => p.1 + p.2)
        ⟨[(0, ⟨7, some ⟨[100, 101], [10]⟩, none⟩)]⟩).intents 0 =
      (lookupIntent [(0, (⟨7, some ⟨[100, 101], [10]⟩, none⟩ : Intent Nat))] 0).map
        (signIntent (fun p => p.1 + p.2) 0)) ∧
    ((signOffer 7 (⟨[100, 101], [10]⟩ : UnshieldedOffer Nat)).signatures[0]? =
      some 10) ∧
    ((signOffer 7 (⟨[100, 101], [10]⟩ : UnshieldedOffer Nat)).signatures[1]? =
      some 7) ∧
    signTransactionIntents (fun p : Nat × Nat => p.1 + p.2)
        (signTransactionIntents (fun p => p.1 + p.2)
          ⟨[(0, ⟨7, some ⟨[100, 101], [10]⟩, none⟩)]⟩) =
      signTransactionIntents (fun p => p.1 + p.2)
        ⟨[(0, ⟨7, some ⟨[100, 101], [10]⟩, none⟩)]⟩ := by
  have h := claim_C4 (fun p : Nat × Nat => p.1 + p.2)
    (⟨[(0, ⟨7, some ⟨[100, 101], [10]⟩, none⟩)]⟩ : Transaction Nat)
  have ho := h.2.1 7 (⟨[100, 101], [10]⟩ : UnshieldedOffer Nat)
  exact ⟨h.1 0, (ho 0 (by decide)).1 (by decide), (ho 1 (by decide)).2 (by decide),
    h.2.2.2⟩

/-! ## Claim C7: the deploy balance retry loop -/

theorem balanceRetryLoop_all_dust {α : Type} (attempt : Nat → Except String α)
    (poll endDust : Nat)
    (hdust : ∀ t, ∃ m, attempt t = .error m ∧ strIncludes m dustErrorSubstr = true) :
    ∀ fuel now, balanceRetryLoop attempt poll endDust fuel now = .error dustTimeoutMsg := by
  intro fuel
  induction fuel with
  | zero => intro now; rfl
  | succ f ih =>
    intro now
    obtain ⟨m, hm, hincl⟩ := hdust now
    simp only [balanceRetryLoop, hm, hincl, if_true]
    by_cases hnow : endDust < now
    · simp [hnow]
    · simp only [if_neg hnow]
      exact ih (now + poll)

/-- C7: in the deploy submission pipeline, a balance failure whose message
carries the insufficient-dust marker is the only failure retried: the loop
comes back to balancing at `now + poll` while `now ≤ endDust`, and surfaces
the fatal timeout once the deadline is exceeded (in particular, when every
attempt fails with the dust error, the overall result is the timeout); a
successful balance is returned as-is, and any failure without the dust
marker is propagated unchanged with no retry. -/
theorem claim_C7 {α : Type} (attempt : Nat → Except String α)
    (poll endDust fuel now : Nat) :
    (∀ r, attempt now = .ok r →
      balanceRetryLoop attempt poll endDust (fuel + 1) now = .ok r) ∧
    (∀ m, attempt now = .error m → strIncludes m dustErrorSubstr = false →
      balanceRetryLoop attempt poll endDust (fuel + 1) now = .error m) ∧
    (∀ m, attempt now = .error m → strIncludes m dustErrorSubstr = true →
      endDust < now →
      balanceRetryLoop attempt poll endDust (fuel + 1) now = .error dustTimeoutMsg) ∧
    (∀ m, attempt now = .error m → strIncludes m dustErrorSubstr = true →
      now ≤ endDust →
      balanceRetryLoop attempt poll endDust (fuel + 1) now =
        balanceRetryLoop attempt poll endDust fuel (now + poll)) ∧
    ((∀ t, ∃ m, attempt t = .error m ∧ strIncludes m dustErrorSubstr = true) →
      balanceRetryLoop attempt poll endDust fuel now = .error dustTimeoutMsg) := by
  refine ⟨?_, ?_, ?_, ?_, fun h => balanceRetryLoop_all_dust attempt poll endDust h fuel now⟩
  · intro r hr
    simp [balanceRetryLoop, hr]
  · intro m hm hincl
    simp [balanceRetryLoop, hm, hincl]
  · intro m hm hincl hlate
    simp [balanceRetryLoop, hm, hincl, hlate]
  · intro m hm hincl hearly
    simp [balanceRetryLoop, hm, hincl, Nat.not_lt.mpr hearly]

/-- Witness for C7 at concrete schedules: a first attempt failing with the
dust message retries and succeeds on the second attempt; a non-dust failure
is propagated unchanged; an always-dust-failing schedule yields the fatal
timeout. -/
theorem claim_C7_witness :
    balanceRetryLoop
        (fun t => if t = 0 then .error dustErrorSubstr else .ok 42)
        3000 600000 2 0 = .ok 42 ∧
    balanceRetryLoop (fun _ => (.error "boom" : Except String Nat))
        3000 600000 2 0 = .error "boom" ∧
    balanceRetryLoop (fun _ => (.error dustErrorSubstr : Except String Nat))
        3000 2000 3 0 = .error dustTimeoutMsg := by
  have h1 := claim_C7 (fun t => if t = 0 then .error dustErrorSubstr else .ok 42)
    3000 600000 1 0
  have h2 := claim_C7 (fun _ => (.error "boom" : Except String Nat)) 3000 600000 1 0
  have h3 := claim_C7 (fun _ => (.error dustErrorSubstr : Except String Nat)) 3000 2000 3 0
  refine ⟨?_, ?_, ?_⟩
  · rw [h1.2.2.2.1 dustErrorSubstr rfl (by decide) (by decide)]
    have h1' := claim_C7 (fun t => if t = 0 then .error dustErrorSubstr else .ok 42)
      3000 600000 0 3000
    exact h1'.1 42 rfl
  · exact h2.2.1 "boom" rfl (by decide)
  · exact h3.2.2.2.2 (fun t => ⟨dustErrorSubstr, rfl, by decide⟩)

/-! ## Claim C8: the dust-registration candidate loop -/

theorem insertDesc_perm (u : Utxo) (l : List Utxo) :
    List.Perm (insertDesc u l) (u :: l) := by
  induction l with
  | nil => rfl
  | cons v rest ih =>
    by_cases hlt : v.value < u.value
    · simp only [insertDesc, if_pos hlt]
      exact List.Perm.refl _
    · simp only [insertDesc, if_neg hlt]
      exact (ih.cons v).trans (List.Perm.swap u v rest)

theorem insertDesc_sorted (u : Utxo) (l : List Utxo)
    (h : l.Pairwise (fun a b => b.value ≤ a.value)) :
    (insertDesc u l).Pairwise (fun a b => b.value ≤ a.value) := by
  induction l with
  | nil => simp [insertDesc]
  | cons v rest ih =>
    rw [List.pairwise_cons] at h
    obtain ⟨hv, hrest⟩ := h
    by_cases hlt : v.value < u.value
    · simp only [insertDesc, if_pos hlt, List.pairwise_cons]
      refine ⟨?_, hv, hrest⟩
      intro w hw
      rcases List.mem_cons.mp hw with hw' | hw'
      · subst hw'; omega
      · exact le_trans (hv w hw') (by omega)
    · simp only [insertDesc, if_neg hlt, List.pairwise_cons]
      refine ⟨?_, ih hrest⟩
      intro w hw
      rcases List.mem_cons.mp ((insertDesc_perm u rest).mem_iff.mp hw) with hw' | hw'
      · subst hw'; omega
      · exact hv w hw'

theorem sortByValueDesc_sorted (utxos : List Utxo) :
    (sortByValueDesc utxos).Pairwise (fun a b => b.value ≤ a.value) := by
  induction utxos with
  | nil => simp [sortByValueDesc]
  | cons u rest ih => exact insertDesc_sorted u _ ih

theorem sortByValueDesc_perm (utxos : List Utxo) :
    List.Perm (sortByValueDesc utxos) utxos := by
  induction utxos with
  | nil => rfl
  | cons u rest ih =>
    exact (insertDesc_perm u (sortByValueDesc rest)).trans (ih.cons u)

theorem tryCandidates_attempts_le (submit : Utxo → Except String String)
    (cs : List Utxo) : (tryCandidates submit cs).2 ≤ cs.length := by
  induction cs with
  | nil => simp [tryCandidates]
  | cons u rest ih =>
    simp only [tryCandidates]
    cases submit u with
    | ok h => simp
    | error m =>
      by_cases hincl : strIncludes m ineligibleSubstr
      · simp only [hincl, if_true, List.length_cons]
        omega
      · simp [hincl]

theorem tryCandidates_all_ineligible (submit : Utxo → Except String String)
    (cs : List Utxo)
    (h : ∀ u ∈ cs, ∃ m, submit u = .error m ∧ strIncludes m ineligibleSubstr = true) :
    (tryCandidates submit cs).1 = .error noCandidateMsg := by
  induction cs with
  | nil => rfl
  | cons u rest ih =>
    obtain ⟨m, hm, hincl⟩ := h u (by simp)
    simp only [tryCandidates, hm, hincl, if_true]
    exact ih (fun u' hu' => h u' (by simp [hu']))

/-- C8: the dust-registration flow tries candidates in descending value
order (the candidate list is the input reordered to be value-descending),
performs at most one submission per candidate, stops at the first accepted
candidate with exactly its one transaction hash, moves to the next
candidate exactly on the `Custom error: 139` ineligible-input rejection,
rethrows any other error unchanged, fails with the no-candidate-accepted
error when every candidate is rejected as ineligible, and with three
candidates performs at most three submissions. -/
theorem claim_C8 (submit : Utxo → Except String String) (utxos : List Utxo) :
    (sortByValueDesc utxos).Pairwise (fun a b => b.value ≤ a.value) ∧
    List.Perm (sortByValueDesc utxos) utxos ∧
    (registerDustFlow submit utxos).2 ≤ utxos.length ∧
    (∀ u rest h, submit u = .ok h →
      tryCandidates submit (u :: rest) = (.ok h, 1)) ∧
    (∀ u rest m, submit u = .error m → strIncludes m ineligibleSubstr = true →
      tryCandidates submit (u :: rest) =
        ((tryCandidates submit rest).1, (tryCandidates submit rest).2 + 1)) ∧
    (∀ u rest m, submit u = .error m → strIncludes m ineligibleSubstr = false →
      tryCandidates submit (u :: rest) = (.error m, 1)) ∧
    ((∀ u ∈ utxos, ∃ m, submit u = .error m ∧ strIncludes m ineligibleSubstr = true) →
      (registerDustFlow submit utxos).1 = .error noCandidateMsg) ∧
    (∀ u1 u2 u3 m1 m2 h3,
      submit u1 = .error m1 → strIncludes m1 ineligibleSubstr = true →
      submit u2 = .error m2 → strIncludes m2 ineligibleSubstr = true →
      submit u3 = .ok h3 →
      tryCandidates submit [u1, u2, u3] = (.ok h3, 3)) := by
  refine ⟨sortByValueDesc_sorted utxos, sortByValueDesc_perm utxos, ?_, ?_, ?_, ?_, ?_, ?_⟩
  · calc (registerDustFlow submit utxos).2
        ≤ (sortByValueDesc utxos).length :=
          tryCandidates_attempts_le submit (sortByValueDesc utxos)
      _ = utxos.length := (sortByValueDesc_perm utxos).length_eq
  · intro u rest h hok
    simp [tryCandidates, hok]
  · intro u rest m hm hincl
    simp [tryCandidates, hm, hincl]
  · intro u rest m hm hincl
    simp [tryCandidates, hm, hincl]
  · intro hall
    exact tryCandidates_all_ineligible submit (sortByValueDesc utxos)
      (fun u hu => hall u ((sortByValueDesc_perm utxos).mem_iff.mp hu))
  · intro u1 u2 u3 m1 m2 h3 hm1 hincl1 hm2 hincl2 hok3
    simp [tryCandidates, hm1, hincl1, hm2, hincl2, hok3]

/-- Witness for C8 at the end-to-end scenario C of the spec: three
candidates in descending value order, the first two rejected with the
ineligible-input code, the third accepted: exactly one hash is returned and
exactly three submissions occur. -/
theorem claim_C8_witness :
    tryCandidates
        (fun u => if u.owner = 3 then .ok "txhash" else .error "Custom error: 139")
        [⟨30, 1⟩, ⟨20, 2⟩, ⟨10, 3⟩] = (.ok "txhash", 3) ∧
    sortByValueDesc [⟨10, 3⟩, ⟨30, 1⟩, ⟨20, 2⟩] = [⟨30, 1⟩, ⟨20, 2⟩, ⟨10, 3⟩] := by
  have h := claim_C8
    (fun u => if u.owner = 3 then .ok "txhash" else .error "Custom error: 139")
    ([] : List Utxo)
  refine ⟨h.2.2.2.2.2.2.2 ⟨30, 1⟩ ⟨20, 2⟩ ⟨10, 3⟩
      "Custom error: 139" "Custom error: 139" "txhash"
      rfl (by decide) rfl (by decide) rfl, ?_⟩
  rfl

/-! ## Claim C5: bounded polling loops -/

theorem syncLoop_head {S : Type} (pred : S → Bool) (sample : Nat → S)
    (poll deadline fuel now : Nat) (hf : 0 < fuel) (hn : now < deadline) :
    (syncLoop pred sample poll deadline fuel now).sampledAt.head? = some now := by
  cases fuel with
  | zero => omega
  | succ f =>
    by_cases hpred : pred (sample now)
    · simp [syncLoop, hn, hpred]
    · simp [syncLoop, hn, hpred]

theorem syncLoop_empty_of_late {S : Type} (pred : S → Bool) (sample : Nat → S)
    (poll deadline fuel now : Nat) (hn : ¬ now < deadline) :
    (syncLoop pred sample poll deadline fuel now).sampledAt = [] := by
  cases fuel with
  | zero => rfl
  | succ f => simp [syncLoop, hn]

theorem syncLoop_chain {S : Type} (pred : S → Bool) (sample : Nat → S)
    (poll deadline : Nat) :
    ∀ fuel now, List.Chain' (fun a b => b = a + poll)
      (syncLoop pred sample poll deadline fuel now).sampledAt := by
  intro fuel
  induction fuel with
  | zero => intro now; simp [syncLoop]
  | succ f ih =>
    intro now
    by_cases hn : now < deadline
    · by_cases hpred : pred (sample now)
      · simp [syncLoop, hn, hpred]
      · simp only [syncLoop, if_pos hn, if_neg hpred]
        apply List.chain'_cons'.mpr
        refine ⟨?_, ih (now + poll)⟩
        intro y hy
        cases f with
        | zero => simp [syncLoop] at hy
        | succ f' =>
          by_cases hn' : now + poll < deadline
          · rw [syncLoop_head pred sample poll deadline _ _ (Nat.succ_pos _) hn'] at hy
            simp at hy
            omega
          · rw [syncLoop_empty_of_late pred sample poll deadline _ _ hn'] at hy
            simp at hy
    · simp [syncLoop, hn]

theorem syncLoop_mem {S : Type} (pred : S → Bool) (sample : Nat → S)
    (poll deadline : Nat) :
    ∀ fuel now t, t ∈ (syncLoop pred sample poll deadline fuel now).sampledAt →
      now ≤ t ∧ t < deadline := by
  intro fuel
  induction fuel with
  | zero => intro now t ht; simp [syncLoop] at ht
  | succ f ih =>
    intro now t ht
    by_cases hn : now < deadline
    · by_cases hpred : pred (sample now)
      · simp [syncLoop, hn, hpred] at ht
        omega
      · simp only [syncLoop, if_pos hn, if_neg hpred, List.mem_cons] at ht
        rcases ht with ht | ht
        · omega
        · have := ih (now + poll) t ht
          omega
    · rw [syncLoop_empty_of_late pred sample poll deadline _ _ hn] at ht
      simp at ht

theorem syncLoop_some {S : Type} (pred : S → Bool) (sample : Nat → S)
    (poll deadline : Nat) :
    ∀ fuel now s, (syncLoop pred sample poll deadline fuel now).result = some s →
      ∃ ts t, (syncLoop pred sample poll deadline fuel now).sampledAt = ts ++ [t] ∧
        s = sample t ∧ pred s = true ∧ ∀ u ∈ ts, pred (sample u) = false := by
  intro fuel
  induction fuel with
  | zero => intro now s hs; simp [syncLoop] at hs
  | succ f ih =>
    intro now s hs
    by_cases hn : now < deadline
    · by_cases hpred : pred (sample now)
      · simp only [syncLoop, if_pos hn, if_pos hpred] at hs ⊢
        have hss : sample now = s := Option.some_inj.mp hs
        refine ⟨[], now, by simp, hss.symm, ?_, by simp⟩
        rw [← hss]
        exact hpred
      · simp only [syncLoop, if_pos hn, if_neg hpred] at hs ⊢
        obtain ⟨ts, t, h1, h2, h3, h4⟩ := ih (now + poll) s hs
        refine ⟨now :: ts, t, by rw [h1]; rfl, h2, h3, ?_⟩
        intro u hu
        rcases List.mem_cons.mp hu with hu' | hu'
        · subst hu'
          simpa using hpred
        · exact h4 u hu'
    · simp [syncLoop, hn] at hs

theorem syncLoop_none {S : Type} (pred : S → Bool) (sample : Nat → S)
    (poll deadline : Nat) :
    ∀ fuel now, (syncLoop pred sample poll deadline fuel now).result = none →
      ∀ t ∈ (syncLoop pred sample poll deadline fuel now).sampledAt,
        pred (sample t) = false := by
  intro fuel
  induction fuel with
  | zero => intro now _ t ht; simp [syncLoop] at ht
  | succ f ih =>
    intro now hres t ht
    by_cases hn : now < deadline
    · by_cases hpred : pred (sample now)
      · simp [syncLoop, hn, hpred] at hres
      · simp only [syncLoop, if_pos hn, if_neg hpred, List.mem_cons] at hres ht
        rcases ht with ht | ht
        · subst ht
          simpa using hpred
        · exact ih (now + poll) hres t ht
    · rw [syncLoop_empty_of_late pred sample poll deadline _ _ hn] at ht
      simp at ht

theorem syncLoop_exit_lt {S : Type} (pred : S → Bool) (sample : Nat → S)
    (poll deadline : Nat) :
    ∀ fuel now, now < deadline + poll →
      (syncLoop pred sample poll deadline fuel now).exitTime < deadline + poll := by
  intro fuel
  induction fuel with
  | zero => intro now h; simpa [syncLoop] using h
  | succ f ih =>
    intro now h
    by_cases hn : now < deadline
    · by_cases hpred : pred (sample now)
      · simp [syncLoop, hn, hpred]
        omega
      · simp only [syncLoop, if_pos hn, if_neg hpred]
        exact ih (now + poll) (by omega)
    · simpa [syncLoop, hn] using h

theorem syncLoop_none_deadline {S : Type} (pred : S → Bool) (sample : Nat → S)
    (poll deadline : Nat) :
    ∀ fuel now, deadline ≤ now + fuel * poll →
      (syncLoop pred sample poll deadline fuel now).result = none →
      deadline ≤ (syncLoop pred sample poll deadline fuel now).exitTime := by
  intro fuel
  induction fuel with
  | zero => intro now h _; simpa [syncLoop] using h
  | succ f ih =>
    intro now h hres
    by_cases hn : now < deadline
    · by_cases hpred : pred (sample now)
      · simp [syncLoop, hn, hpred] at hres
      · simp only [syncLoop, if_pos hn, if_neg hpred] at hres ⊢
        refine ih (now + poll) ?_ hres
        have hmul : (f + 1) * poll = f * poll + poll := Nat.succ_mul f poll
        omega
    · simp only [syncLoop, if_neg hn]
      omega

theorem statusLoop_head {S : Type} (pred : S → Bool) (sample : Nat → S)
    (poll deadline fuel now : Nat) (hf : 0 < fuel) (hn : now < deadline) :
    (statusLoop pred sample poll deadline fuel now).sampledAt.head? =
      some (now + poll) := by
  cases fuel with
  | zero => omega
  | succ f =>
    by_cases hpred : pred (sample (now + poll))
    · simp [statusLoop, hn, hpred]
    · simp [statusLoop, hn, hpred]

theorem statusLoop_empty_of_late {S : Type} (pred : S → Bool) (sample : Nat → S)
    (poll deadline fuel now : Nat) (hn : ¬ now < deadline) :
    (statusLoop pred sample poll deadline fuel now).sampledAt = [] := by
  cases fuel with
  | zero => rfl
  | succ f => simp [statusLoop, hn]

theorem statusLoop_chain {S : Type} (pred : S → Bool) (sample : Nat → S)
    (poll deadline : Nat) :
    ∀ fuel now, List.Chain' (fun a b => b = a + poll)
      (statusLoop pred sample poll deadline fuel now).sampledAt := by
  intro fuel
  induction fuel with
  | zero => intro now; simp [statusLoop]
  | succ f ih =>
    intro now
    by_cases hn : now < deadline
    · by_cases hpred : pred (sample (now + poll))
      · simp [statusLoop, hn, hpred]
      · simp only [statusLoop, if_pos hn, if_neg hpred]
        apply List.chain'_cons'.mpr
        refine ⟨?_, ih (now + poll)⟩
        intro y hy
        cases f with
        | zero => simp [statusLoop] at hy
        | succ f' =>
          by_cases hn' : now + poll < deadline
          · rw [statusLoop_head pred sample poll deadline _ _ (Nat.succ_pos _) hn'] at hy
            simp at hy
            omega
          · rw [statusLoop_empty_of_late pred sample poll deadline _ _ hn'] at hy
            simp at hy
    · simp [statusLoop, hn]

theorem statusLoop_mem {S : Type} (pred : S → Bool) (sample : Nat → S)
    (poll deadline : Nat) :
    ∀ fuel now t, t ∈ (statusLoop pred sample poll deadline fuel now).sampledAt →
      now + poll ≤ t ∧ t < deadline + poll := by
  intro fuel
  induction fuel with
  | zero => intro now t ht; simp [statusLoop] at ht
  | succ f ih =>
    intro now t ht
    by_cases hn : now < deadline
    · by_cases hpred : pred (sample (now + poll))
      · simp [statusLoop, hn, hpred] at ht
        omega
      · simp only [statusLoop, if_pos hn, if_neg hpred, List.mem_cons] at ht
        rcases ht with ht | ht
        · omega
        · have := ih (now + poll) t ht
          omega
    · rw [statusLoop_empty_of_late pred sample poll deadline _ _ hn] at ht
      simp at ht

theorem statusLoop_some {S : Type} (pred : S → Bool) (sample : Nat → S)
    (poll deadline : Nat) :
    ∀ fuel now s, (statusLoop pred sample poll deadline fuel now).result = some s →
      ∃ ts t, (statusLoop pred sample poll deadline fuel now).sampledAt = ts ++ [t] ∧
        s = sample t ∧ pred s = true ∧ ∀ u ∈ ts, pred (sample u) = false := by
  intro fuel
  induction fuel with
  | zero => intro now s hs; simp [statusLoop] at hs
  | succ f ih =>
    intro now s hs
    by_cases hn : now < deadline
    · by_cases hpred : pred (sample (now + poll))
      · simp only [statusLoop, if_pos hn, if_pos hpred] at hs ⊢
        have hss : sample (now + poll) = s := Option.some_inj.mp hs
        refine ⟨[], now + poll, by simp, hss.symm, ?_, by simp⟩
        rw [← hss]
        exact hpred
      · simp only [statusLoop, if_pos hn, if_neg hpred] at hs ⊢
        obtain ⟨ts, t, h1, h2, h3, h4⟩ := ih (now + poll) s hs
        refine ⟨(now + poll) :: ts, t, by rw [h1]; rfl, h2, h3, ?_⟩
        intro u hu
        rcases List.mem_cons.mp hu with hu' | hu'
        · subst hu'
          simpa using hpred
        · exact h4 u hu'
    · simp [statusLoop, hn] at hs

theorem statusLoop_none {S : Type} (pred : S → Bool) (sample : Nat → S)
    (poll deadline : Nat) :
    ∀ fuel now, (statusLoop pred sample poll deadline fuel now).result = none →
      ∀ t ∈ (statusLoop pred sample poll deadline fuel now).sampledAt,
        pred (sample t) = false := by
  intro fuel
  induction fuel with
  | zero => intro now _ t ht; simp [statusLoop] at ht
  | succ f ih =>
    intro now hres t ht
    by_cases hn : now < deadline
    · by_cases hpred : pred (sample (now + poll))
      · simp [statusLoop, hn, hpred] at hres
      · simp only [statusLoop, if_pos hn, if_neg hpred, List.mem_cons] at hres ht
        rcases ht with ht | ht
        · subst ht
          simpa using hpred
        · exact ih (now + poll) hres t ht
    · rw [statusLoop_empty_of_late pred sample poll deadline _ _ hn] at ht
      simp at ht

theorem statusLoop_exit_lt {S : Type} (pred : S → Bool) (sample : Nat → S)
    (poll deadline : Nat) :
    ∀ fuel now, now < deadline + poll →
      (statusLoop pred sample poll deadline fuel now).exitTime < deadline + poll := by
  intro fuel
  induction fuel with
  | zero => intro now h; simpa [statusLoop] using h
  | succ f ih =>
    intro now h
    by_cases hn : now < deadline
    · by_cases hpred : pred (sample (now + poll))
      · simp [statusLoop, hn, hpred]
      · simp only [statusLoop, if_pos hn, if_neg hpred]
        exact ih (now + poll) (by omega)
    · simpa [statusLoop, hn] using h

theorem statusLoop_none_deadline {S : Type} (pred : S → Bool) (sample : Nat → S)
    (poll deadline : Nat) :
    ∀ fuel now, deadline ≤ now + fuel * poll →
      (statusLoop pred sample poll deadline fuel now).result = none →
      deadline ≤ (statusLoop pred sample poll deadline fuel now).exitTime := by
  intro fuel
  induction fuel with
  | zero => intro now h _; simpa [statusLoop] using h
  | succ f ih =>
    intro now h hres
    by_cases hn : now < deadline
    · by_cases hpred : pred (sample (now + poll))
      · simp [statusLoop, hn, hpred] at hres
      · simp only [statusLoop, if_pos hn, if_neg hpred] at hres ⊢
        refine ih (now + poll) ?_ hres
        have hmul : (f + 1) * poll = f * poll + poll := Nat.succ_mul f poll
        omega
    · simp only [statusLoop, if_neg hn]
      omega

/-- C5 as stated is false: `waitForStatus` does not sample its state source
immediately — it sleeps one poll interval before every sample, including the
first. Concretely, for the state source that satisfies the predicate exactly
at time 0 (the instant the wait starts), the state at time 0 satisfies the
predicate, yet `waitForStatus` never samples instant 0 and times out
(returning null) instead of returning that first state, whereas
`waitUntilSynced` over the same source returns it at once. -/
theorem claim_C5_counterexample :
    (fun b : Bool => b) ((fun t : Nat => decide (t = 0)) 0) = true ∧
    (waitForStatusModel (fun b : Bool => b) (fun t : Nat => decide (t = 0))).result =
      none ∧
    (0 ∉ (waitForStatusModel (fun b : Bool => b)
      (fun t : Nat => decide (t = 0))).sampledAt) ∧
    (waitUntilSyncedModel (fun b : Bool => b) (fun t : Nat => decide (t = 0))).result =
      some true := by
  refine ⟨rfl, by decide, by decide, by decide⟩

/-- C5 amended: both bounded polling waits resample at the poll-interval
cadence (consecutive samples exactly `WAIT_POLL_MS` apart — sleeping between
samples, never busy-spinning), return the first sampled state satisfying
their predicate, time out only once the deadline has elapsed, and exit
within `deadline + pollInterval` wall-clock time; but only `waitUntilSynced`
samples immediately (first sample at instant 0, all samples before the
deadline) — `waitForStatus` sleeps one poll interval before its first
sample (first sample at instant `WAIT_POLL_MS`) and reports the timeout by
returning null. -/
theorem claim_C5_amended {S : Type} (pred : S → Bool) (sample : Nat → S) :
    ((waitUntilSyncedModel pred sample).sampledAt.head? = some 0) ∧
    List.Chain' (fun a b => b = a + WAIT_POLL_MS)
      (waitUntilSyncedModel pred sample).sampledAt ∧
    (∀ t ∈ (waitUntilSyncedModel pred sample).sampledAt, t < WAIT_FOR_SYNC_MS) ∧
    (∀ s, (waitUntilSyncedModel pred sample).result = some s →
      ∃ ts t, (waitUntilSyncedModel pred sample).sampledAt = ts ++ [t] ∧
        s = sample t ∧ pred s = true ∧ ∀ u ∈ ts, pred (sample u) = false) ∧
    ((waitUntilSyncedModel pred sample).result = none →
      (∀ t ∈ (waitUntilSyncedModel pred sample).sampledAt, pred (sample t) = false) ∧
      WAIT_FOR_SYNC_MS ≤ (waitUntilSyncedModel pred sample).exitTime) ∧
    ((waitUntilSyncedModel pred sample).exitTime < WAIT_FOR_SYNC_MS + WAIT_POLL_MS) ∧
    ((waitForStatusModel pred sample).sampledAt.head? = some WAIT_POLL_MS) ∧
    List.Chain' (fun a b => b = a + WAIT_POLL_MS)
      (waitForStatusModel pred sample).sampledAt ∧
    (∀ t ∈ (waitForStatusModel pred sample).sampledAt,
      WAIT_POLL_MS ≤ t ∧ t < WAIT_FOR_STATE_UPDATE_MS + WAIT_POLL_MS) ∧
    (∀ s, (waitForStatusModel pred sample).result = some s →
      ∃ ts t, (waitForStatusModel pred sample).sampledAt = ts ++ [t] ∧
        s = sample t ∧ pred s = true ∧ ∀ u ∈ ts, pred (sample u) = false) ∧
    ((waitForStatusModel pred sample).result = none →
      (∀ t ∈ (waitForStatusModel pred sample).sampledAt, pred (sample t) = false) ∧
      WAIT_FOR_STATE_UPDATE_MS ≤ (waitForStatusModel pred sample).exitTime) ∧
    ((waitForStatusModel pred sample).exitTime <
      WAIT_FOR_STATE_UPDATE_MS + WAIT_POLL_MS) := by
  unfold waitUntilSyncedModel waitForStatusModel
  refine ⟨?_, ?_, ?_, ?_, ?_, ?_, ?_, ?_, ?_, ?_, ?_, ?_⟩
  · exact syncLoop_head pred sample WAIT_POLL_MS WAIT_FOR_SYNC_MS WAIT_FOR_SYNC_MS 0
      (by norm_num [WAIT_FOR_SYNC_MS]) (by norm_num [WAIT_FOR_SYNC_MS])
  · exact syncLoop_chain pred sample WAIT_POLL_MS WAIT_FOR_SYNC_MS WAIT_FOR_SYNC_MS 0
  · exact fun t ht => (syncLoop_mem pred sample WAIT_POLL_MS WAIT_FOR_SYNC_MS
      WAIT_FOR_SYNC_MS 0 t ht).2
  · exact fun s hs => syncLoop_some pred sample WAIT_POLL_MS WAIT_FOR_SYNC_MS
      WAIT_FOR_SYNC_MS 0 s hs
  · intro hres
    refine ⟨syncLoop_none pred sample WAIT_POLL_MS WAIT_FOR_SYNC_MS
      WAIT_FOR_SYNC_MS 0 hres, ?_⟩
    exact syncLoop_none_deadline pred sample WAIT_POLL_MS WAIT_FOR_SYNC_MS
      WAIT_FOR_SYNC_MS 0 (by norm_num [WAIT_FOR_SYNC_MS, WAIT_POLL_MS]) hres
  · exact syncLoop_exit_lt pred sample WAIT_POLL_MS WAIT_FOR_SYNC_MS
      WAIT_FOR_SYNC_MS 0 (by norm_num [WAIT_FOR_SYNC_MS, WAIT_POLL_MS])
  · exact statusLoop_head pred sample WAIT_POLL_MS WAIT_FOR_STATE_UPDATE_MS
      WAIT_FOR_STATE_UPDATE_MS 0 (by norm_num [WAIT_FOR_STATE_UPDATE_MS])
      (by norm_num [WAIT_FOR_STATE_UPDATE_MS])
  · exact statusLoop_chain pred sample WAIT_POLL_MS WAIT_FOR_STATE_UPDATE_MS
      WAIT_FOR_STATE_UPDATE_MS 0
  · exact fun t ht => statusLoop_mem pred sample WAIT_POLL_MS WAIT_FOR_STATE_UPDATE_MS
      WAIT_FOR_STATE_UPDATE_MS 0 t ht
  · exact fun s hs => statusLoop_some pred sample WAIT_POLL_MS WAIT_FOR_STATE_UPDATE_MS
      WAIT_FOR_STATE_UPDATE_MS 0 s hs
  · intro hres
    refine ⟨statusLoop_none pred sample WAIT_POLL_MS WAIT_FOR_STATE_UPDATE_MS
      WAIT_FOR_STATE_UPDATE_MS 0 hres, ?_⟩
    exact statusLoop_none_deadline pred sample WAIT_POLL_MS WAIT_FOR_STATE_UPDATE_MS
      WAIT_FOR_STATE_UPDATE_MS 0
      (by norm_num [WAIT_FOR_STATE_UPDATE_MS, WAIT_POLL_MS]) hres
  · exact statusLoop_exit_lt pred sample WAIT_POLL_MS WAIT_FOR_STATE_UPDATE_MS
      WAIT_FOR_STATE_UPDATE_MS 0
      (by norm_num [WAIT_FOR_STATE_UPDATE_MS, WAIT_POLL_MS])

/-- Witness for the amended C5: with a source that is always ready,
`waitUntilSynced` returns the first (and only) sample; with a source that
never satisfies the predicate, `waitForStatus` exits no earlier than its
deadline. -/
theorem claim_C5_witness :
    (∃ ts t,
      (waitUntilSyncedModel (fun b : Bool => b) (fun _ => true)).sampledAt =
        ts ++ [t] ∧
      true = (fun _ : Nat => (true : Bool)) t ∧
      (fun b : Bool => b) true = true ∧
      ∀ u ∈ ts, (fun b : Bool => b) ((fun _ : Nat => (true : Bool)) u) = false) ∧
    WAIT_FOR_STATE_UPDATE_MS ≤
      (waitForStatusModel (fun b : Bool => b) (fun _ => false)).exitTime := by
  constructor
  · exact (claim_C5_amended (fun b : Bool => b) (fun _ => true)).2.2.2.1 true (by decide)
  · exact ((claim_C5_amended (fun b : Bool => b)
      (fun _ => false)).2.2.2.2.2.2.2.2.2.2.1 (by decide)).2

end BarAgeGate
